import Mathlib

/-!
# Verification of the ai-image-analyzer record store and similarity index

Shallow embedding of the two core utilities of the repository:

* the record store (`lib/database.js`, bundled in `src/lib/hashImage.js`):
  `saveAnalysis`, `getAnalysisByHash`, `getAllAnalyses`, `deleteAnalysis`,
  `getStats`, with the backing JSON file modelled as an explicit `DB` value
  threaded through each call, and the file-write that may fail modelled by a
  boolean `fsOk` parameter;
* the similarity index (`lib/vectorStore.js`, `src/unnamed/part_001`):
  `cosine` and `findSimilar` over rational-valued vectors, with `Math.sqrt`
  abstracted as a function parameter `sqrtA` (JavaScript numbers are IEEE
  doubles, hence rationals; exact rational arithmetic is the idealisation of
  the float operations, and the square root - the one operation whose exact
  value can be irrational - is kept abstract).

JavaScript-specific behaviour is modelled explicitly: `x || d` treats the
empty string as falsy (`jsOrStr`), `Array.prototype.slice` clamps and wraps
negative indices (`jsSlice`), `Array.prototype.sort` is a stable sort with
respect to its comparator (ECMAScript 2019 and later; modelled by
`List.insertionSort`, which inserts earlier elements in front of tied later
ones), and `undefined` string fields are `Option.none` (so that
`undefined === undefined` dedup comparisons are `Option` equality).

`new Date().toISOString()` timestamps are modelled as natural numbers
denoting the instant; the code only ever compares them through
`new Date(ts)` subtraction, which the numeric order models exactly.
-/

namespace ImageAnalyzer

/-- JavaScript `x || d` on an optional string: `undefined`/`null` and the
empty string are falsy and fall through to the default. -/
def jsOrStr : Option String → String → String
  | none, d => d
  | some s, d => if s = "" then d else s

/-- Resolve one endpoint of `Array.prototype.slice(start, end)` against a
length: a negative index counts from the end (clamped at 0), a non-negative
one is clamped at the length. -/
def jsSliceIdx (len : ℕ) (x : ℤ) : ℕ :=
  if x < 0 then ((len : ℤ) + x).toNat else min x.toNat len

/-- JavaScript `l.slice(start, end)`: the elements from the resolved start
index (inclusive) to the resolved end index (exclusive). -/
def jsSlice {α : Type} (l : List α) (start stop : ℤ) : List α :=
  (l.take (jsSliceIdx l.length stop)).drop (jsSliceIdx l.length start)

/-- Pair each element of a list with its index, starting from `n`. -/
def withIdx {α : Type} : List α → ℕ → List (α × ℕ)
  | [], _ => []
  | a :: l, n => (a, n) :: withIdx l (n + 1)

/-! ## Similarity index (`lib/vectorStore.js`) -/

/-- A `VectorEntry` as appended by `addEntry({id, summary, embedding, ts, meta})`. -/
structure VEntry where
  id : String
  summary : String
  embedding : List ℚ
  ts : ℕ
  meta : List (String × String)
  deriving DecidableEq, Repr

/-- A `SimilarityResult` `{id, summary, score, ts}` as produced by `findSimilar`. -/
structure SimRes where
  id : String
  summary : String
  score : ℚ
  ts : ℕ
  deriving DecidableEq, Repr

/-- `a.reduce((s, v, i) => s + v * b[i], 0)`: the dot product over the indices
of `a` (the code assumes `b` is at least as long as `a`; all uses below carry
an equal-length hypothesis). -/
def dotJS (a b : List ℚ) : ℚ :=
  ((a.zip b).map fun p => p.1 * p.2).sum

/-- The squared magnitude `a.reduce((s, v) => s + v * v, 0)`, the argument the
code passes to `Math.sqrt` when computing a magnitude. -/
def magSq (a : List ℚ) : ℚ :=
  (a.map fun v => v * v).sum

/-- `cosine(a, b)` from `lib/vectorStore.js`, with `Math.sqrt` abstracted as
`sqrtA`: compute the dot product and the two magnitudes, return 0 when either
magnitude is exactly 0, otherwise the normalised dot product. -/
def cosine (sqrtA : ℚ → ℚ) (a b : List ℚ) : ℚ :=
  let dot := dotJS a b
  let magA := sqrtA (magSq a)
  let magB := sqrtA (magSq b)
  if magA = 0 ∨ magB = 0 then 0 else dot / (magA * magB)

/-- The comparator `(a, b) => b.score - a.score` of `findSimilar` as the
ordering relation of a stable sort: `x` may stay in front of `y` exactly when
the comparator does not require swapping, i.e. when `y.score ≤ x.score`. -/
def rScore (x y : VEntry × ℚ) : Prop := y.2 ≤ x.2

instance : DecidableRel rScore := fun x y => inferInstanceAs (Decidable (y.2 ≤ x.2))

/-- `findSimilar(embedding, topK)` from `lib/vectorStore.js`, over an explicit
store: empty store short-circuits to `[]`; otherwise score every entry with
`cosine`, sort stably by descending score, `slice(0, topK)` and project to
`SimilarityResult`s. -/
def findSimilar (sqrtA : ℚ → ℚ) (store : List VEntry) (embedding : List ℚ)
    (topK : ℤ) : List SimRes :=
  if store.isEmpty then []
  else
    let scored := store.map fun entry => (entry, cosine sqrtA embedding entry.embedding)
    let sorted := List.insertionSort rScore scored
    (jsSlice sorted 0 topK).map fun s => ⟨s.1.id, s.1.summary, s.2, s.1.ts⟩

/-- The ranking the specification describes: stored entries with their scores,
ordered by strictly greater score first and, between equal scores, by the
entries' original position in the store. -/
def rLex (x y : (VEntry × ℚ) × ℕ) : Prop :=
  y.1.2 < x.1.2 ∨ (x.1.2 = y.1.2 ∧ x.2 ≤ y.2)

instance : DecidableRel rLex := fun x y =>
  inferInstanceAs (Decidable (y.1.2 < x.1.2 ∨ (x.1.2 = y.1.2 ∧ x.2 ≤ y.2)))

/-- Specification-side ranking for a query: score each stored entry, index the
scored list by store position, sort by descending score with ties broken by
store position, and forget the indices again. -/
def specRanked (sqrtA : ℚ → ℚ) (store : List VEntry) (embedding : List ℚ) :
    List (VEntry × ℚ) :=
  let scored := store.map fun entry => (entry, cosine sqrtA embedding entry.embedding)
  (List.insertionSort rLex (withIdx scored 0)).map Prod.fst

/-! ## Record store (`lib/database.js`, bundled in `src/lib/hashImage.js`) -/

/-- An `AnalysisRecord` exactly as the object literal in `saveAnalysis` builds
it: every field is always present; `imageHash` and `embedding` may hold the
JavaScript `undefined`/`null`, modelled as `Option.none`. -/
structure Analysis where
  id : String
  timestamp : ℕ
  imageHash : Option String
  filename : String
  imageSummary : String
  detectedElements : List String
  detailedExplanation : String
  realWorldApplications : String
  educationalInsight : String
  confidenceLevel : String
  domain : String
  extractedText : String
  caption : String
  rawVision : String
  related : List SimRes
  embedding : Option (List ℚ)
  metadata : List (String × String)
  deriving DecidableEq, Repr

/-- The caller-supplied `analysisData` argument of `saveAnalysis`: every field
may be absent (`undefined`), in which case the defaults of the object literal
apply. -/
structure Payload where
  id : Option String
  imageHash : Option String
  filename : Option String
  imageSummary : Option String
  detectedElements : Option (List String)
  detailedExplanation : Option String
  realWorldApplications : Option String
  educationalInsight : Option String
  confidenceLevel : Option String
  domain : Option String
  extractedText : Option String
  caption : Option String
  rawVision : Option String
  related : Option (List SimRes)
  embedding : Option (List ℚ)
  metadata : Option (List (String × String))
  deriving DecidableEq, Repr

/-- The payload with every field absent. -/
def emptyPayload : Payload :=
  ⟨none, none, none, none, none, none, none, none, none, none, none, none,
   none, none, none, none⟩

/-- The persisted database document `{analyses, metadata: {createdAt,
totalAnalyses}}`. -/
structure DBMeta where
  createdAt : Option String
  totalAnalyses : ℕ
  deriving DecidableEq, Repr

structure DB where
  analyses : List Analysis
  metadata : DBMeta
  deriving DecidableEq, Repr

/-- `initDB`: the fresh database written when none exists: no analyses, a
creation timestamp, and a total of 0. -/
def initDB (createdAt : String) : DB :=
  ⟨[], ⟨some createdAt, 0⟩⟩

/-- The `analysis` object literal of `saveAnalysis` (lines 51-67): apply the
field defaults to the payload. `genId` stands for the generated fallback id
`` `analysis_${Date.now()}_${random}` `` and `now` for
`new Date().toISOString()`; string defaults go through JavaScript `||`
(empty string falsy), array/object defaults only replace `undefined`, and
`imageHash` is copied from `analysisData.id` with no default. -/
def defaulted (genId : String) (now : ℕ) (analysisData : Payload) : Analysis where
  id := jsOrStr analysisData.id genId
  timestamp := now
  imageHash := analysisData.id
  filename := jsOrStr analysisData.filename "unknown"
  imageSummary := jsOrStr analysisData.imageSummary ""
  detectedElements := analysisData.detectedElements.getD []
  detailedExplanation := jsOrStr analysisData.detailedExplanation ""
  realWorldApplications := jsOrStr analysisData.realWorldApplications ""
  educationalInsight := jsOrStr analysisData.educationalInsight ""
  confidenceLevel := jsOrStr analysisData.confidenceLevel "Medium"
  domain := jsOrStr analysisData.domain "Unknown"
  extractedText := jsOrStr analysisData.extractedText ""
  caption := jsOrStr analysisData.caption ""
  rawVision := jsOrStr analysisData.rawVision ""
  related := analysisData.related.getD []
  embedding := analysisData.embedding
  metadata := analysisData.metadata.getD []

/-- The object spread `{...existing, ...analysis}` of the update branch: the
update object defines every field of the record shape, so every field of the
result comes from it. -/
def spreadMerge (_existing analysis : Analysis) : Analysis where
  id := analysis.id
  timestamp := analysis.timestamp
  imageHash := analysis.imageHash
  filename := analysis.filename
  imageSummary := analysis.imageSummary
  detectedElements := analysis.detectedElements
  detailedExplanation := analysis.detailedExplanation
  realWorldApplications := analysis.realWorldApplications
  educationalInsight := analysis.educationalInsight
  confidenceLevel := analysis.confidenceLevel
  domain := analysis.domain
  extractedText := analysis.extractedText
  caption := analysis.caption
  rawVision := analysis.rawVision
  related := analysis.related
  embedding := analysis.embedding
  metadata := analysis.metadata

/-- Lines 70-77 of `saveAnalysis`: `findIndex` on `imageHash` equality
(`undefined === undefined` holds, so absent hashes match each other) followed
by either in-place replacement with the spread merge or a push; the boolean
records whether the push branch ran (`existingIndex < 0`). -/
def upsertByHash (analysis : Analysis) : List Analysis → List Analysis × Bool
  | [] => ([analysis], true)
  | a :: rest =>
    if a.imageHash = analysis.imageHash then
      (spreadMerge a analysis :: rest, false)
    else
      let (rest', appended) := upsertByHash analysis rest
      (a :: rest', appended)

/-- The in-memory effect of `saveAnalysis(analysisData)`: build the defaulted
record, update or append by `imageHash`, refresh `metadata.totalAnalyses`
only in the append branch, and return the built record (the code returns
`analysis`, not the merged stored object). -/
def saveAnalysis (genId : String) (now : ℕ) (analysisData : Payload) (db : DB) :
    Analysis × DB :=
  let analysis := defaulted genId now analysisData
  let (analyses', appended) := upsertByHash analysis db.analyses
  let meta := if appended
    then { db.metadata with totalAnalyses := analyses'.length }
    else db.metadata
  (analysis, ⟨analyses', meta⟩)

/-- `writeDB(data)`: rewrite the whole file, returning `true` on success and
`false` on a caught write error. `fsOk` models whether the file system write
succeeds; on failure the on-disk state (second argument) is unchanged. -/
def writeDB (fsOk : Bool) (data disk : DB) : Bool × DB :=
  if fsOk then (true, data) else (false, disk)

/-- `saveAnalysis` including its file write: the record and the resulting
on-disk state. The code calls `writeDB(db)` and discards its boolean result,
returning `analysis` unconditionally. -/
def saveAnalysisFS (fsOk : Bool) (genId : String) (now : ℕ)
    (analysisData : Payload) (disk : DB) : Analysis × DB :=
  let (analysis, db) := saveAnalysis genId now analysisData disk
  let (_ok, disk') := writeDB fsOk db disk
  (analysis, disk')

/-- `getAnalysisByHash(hash)`: first record whose `imageHash` strictly equals
the given string (an absent hash never equals a string). -/
def getAnalysisByHash (hash : String) (db : DB) : Option Analysis :=
  db.analyses.find? fun a => decide (a.imageHash = some hash)

/-- The comparator `(a, b) => new Date(b.timestamp) - new Date(a.timestamp)`
of `getAllAnalyses` and `getStats` as a stable-sort ordering: `a` may stay in
front of `b` when `b.timestamp ≤ a.timestamp`. -/
def tsDesc (a b : Analysis) : Prop := b.timestamp ≤ a.timestamp

instance : DecidableRel tsDesc := fun a b =>
  inferInstanceAs (Decidable (b.timestamp ≤ a.timestamp))

instance : IsTotal Analysis tsDesc :=
  ⟨fun a b => le_total b.timestamp a.timestamp⟩

instance : IsTrans Analysis tsDesc :=
  ⟨fun _ _ _ hab hbc => le_trans hbc hab⟩

/-- JavaScript truthiness of the `limit` argument: `null` and `0` are falsy. -/
def jsTruthyInt : Option ℤ → Bool
  | none => false
  | some l => l != 0

/-- `getAllAnalyses(limit = null, offset = 0)`: sort by timestamp descending
(stable); when `limit` is truthy return `slice(offset, offset + limit)`,
otherwise the whole sorted list. -/
def getAllAnalyses (limit : Option ℤ) (offset : ℤ) (db : DB) : List Analysis :=
  let analyses := List.insertionSort tsDesc db.analyses
  if jsTruthyInt limit then
    match limit with
    | some l => jsSlice analyses offset (offset + l)
    | none => analyses
  else analyses

/-- `deleteAnalysis(id)`: drop every record whose `id` or `imageHash` strictly
equals the argument, refresh the total, and report whether the store shrank. -/
def deleteAnalysis (id : String) (db : DB) : Bool × DB :=
  let initialLength := db.analyses.length
  let kept := db.analyses.filter fun a =>
    decide (a.id ≠ id) && decide (a.imageHash ≠ some id)
  (decide (kept.length < initialLength),
   ⟨kept, { db.metadata with totalAnalyses := kept.length }⟩)

/-- `deleteAnalysis` including its file write (result discarded by the code). -/
def deleteAnalysisFS (fsOk : Bool) (id : String) (disk : DB) : Bool × DB :=
  let (deleted, db) := deleteAnalysis id disk
  let (_ok, disk') := writeDB fsOk db disk
  (deleted, disk')

/-- One entry of `getStats().recentAnalyses`. -/
structure RecentEntry where
  id : String
  timestamp : ℕ
  domain : String
  imageSummary : String
  deriving DecidableEq, Repr

/-- The object returned by `getStats()`; the two count objects are modelled as
association lists in key-insertion order (JavaScript string-keyed object). -/
structure Stats where
  totalAnalyses : ℕ
  domains : List (String × ℕ)
  confidenceLevels : List (String × ℕ)
  recentAnalyses : List RecentEntry
  deriving DecidableEq, Repr

/-- `m[k] = (m[k] || 0) + 1` on a string-keyed object: increment the existing
entry in place, or add the key at the end with count 1. -/
def bump (m : List (String × ℕ)) (k : String) : List (String × ℕ) :=
  match m with
  | [] => [(k, 1)]
  | (k', v) :: rest => if k' = k then (k', v + 1) :: rest else (k', v) :: bump rest k

/-- Object lookup with the `|| 0` default. -/
def lookupCount (m : List (String × ℕ)) (k : String) : ℕ :=
  match m with
  | [] => 0
  | (k', v) :: rest => if k' = k then v else lookupCount rest k

/-- `getStats()`: total count, domain and confidence-level occurrence counts
(`analysis.domain || 'Unknown'`, `analysis.confidenceLevel || 'Medium'`), and
the 10 most recent records reduced to
`{id, timestamp, domain, imageSummary.substring(0, 100) + '...'}`. -/
def getStats (db : DB) : Stats :=
  let recent := ((List.insertionSort tsDesc db.analyses).take 10).map fun a =>
    RecentEntry.mk a.id a.timestamp a.domain (a.imageSummary.take 100 ++ "...")
  let counts := db.analyses.foldl
    (fun (st : List (String × ℕ) × List (String × ℕ)) a =>
      (bump st.1 (jsOrStr (some a.domain) "Unknown"),
       bump st.2 (jsOrStr (some a.confidenceLevel) "Medium")))
    ([], [])
  ⟨db.analyses.length, counts.1, counts.2, recent⟩

/-- An operation against the store, with the success of its file write. -/
inductive StoreOp where
  | save (fsOk : Bool) (genId : String) (now : ℕ) (analysisData : Payload)
  | del (fsOk : Bool) (id : String)

/-- Apply one operation to the on-disk state. -/
def applyOp (disk : DB) : StoreOp → DB
  | .save fsOk genId now analysisData => (saveAnalysisFS fsOk genId now analysisData disk).2
  | .del fsOk id => (deleteAnalysisFS fsOk id disk).2

/-- Run a sequence of operations against the on-disk state. -/
def runOps (disk : DB) (ops : List StoreOp) : DB :=
  ops.foldl applyOp disk

/-- Run a sequence of successful `saveAnalysis` calls, each given as
(generated fallback id, timestamp, payload). -/
def saveSeq (db : DB) : List (String × ℕ × Payload) → DB
  | [] => db
  | (genId, now, p) :: rest => saveSeq (saveAnalysis genId now p db).2 rest

/-- A record holding only the save-time defaults: the result of saving the
empty payload. -/
def sampleRec (genId : String) (now : ℕ) : Analysis :=
  defaulted genId now emptyPayload

/-- A five-record store with distinct timestamps, in insertion order. -/
def sampleDB5 : DB :=
  ⟨[sampleRec "a" 1, sampleRec "b" 2, sampleRec "c" 3, sampleRec "d" 4, sampleRec "e" 5],
   ⟨some "t", 5⟩⟩

/-- A payload keyed by `id = "h"` that supplies a filename. -/
def pay1 : Payload :=
  { emptyPayload with id := some "h", filename := some "a.png" }

/-- A payload keyed by `id = "h"` that omits the filename. -/
def pay2 : Payload :=
  { emptyPayload with id := some "h" }

/-- The store after saving `{imageHash:"h1", domain:"Medical",
confidenceLevel:"High"}` into a freshly initialized store. -/
def scenarioDB : DB :=
  (saveAnalysis "g" 1
    { emptyPayload with
        imageHash := some "h1", domain := some "Medical", confidenceLevel := some "High" }
    (initDB "t")).2

/-! ## Helper lemmas -/

theorem spreadMerge_eq (a r : Analysis) : spreadMerge a r = r := rfl

theorem magSq_replicate_zero (n : ℕ) : magSq (List.replicate n (0 : ℚ)) = 0 := by
  simp [magSq]

theorem jsSlice_neg_length {α : Type} (l : List α) (k : ℤ) (hk : k < 0) :
    (jsSlice l 0 k).length = l.length - k.natAbs := by
  rw [jsSlice, jsSliceIdx, jsSliceIdx, if_neg (by omega), if_pos hk]
  simp only [Int.toNat_zero, Nat.zero_min, List.drop_zero, List.length_take]
  omega

theorem find?_upsert (r : Analysis) (l : List Analysis) :
    ((upsertByHash r l).1.find? fun a => decide (a.imageHash = r.imageHash)) = some r := by
  induction l with
  | nil => simp [upsertByHash, List.find?]
  | cons a rest ih =>
    by_cases h : a.imageHash = r.imageHash
    · simp [upsertByHash, h, spreadMerge_eq, List.find?]
    · simp [upsertByHash, h, List.find?, ih]

/-! ## Claims -/

/-- C2 counterexample: with the write failing (`fsOk = false`, so `writeDB`
returns `false`), `saveAnalysis` still hands the caller exactly the value it
hands back on a successful write - the failure is not surfaced. -/
theorem claim_C2_cex :
    (writeDB false (saveAnalysis "g" 1 emptyPayload (initDB "t")).2 (initDB "t")).1 = false
    ∧ (saveAnalysisFS false "g" 1 emptyPayload (initDB "t")).1
      = (saveAnalysisFS true "g" 1 emptyPayload (initDB "t")).1 :=
  ⟨rfl, rfl⟩

/-- C2 (amended): `writeDB` reports a write failure only through its boolean
result and leaves the disk unchanged; `saveAnalysis` discards that boolean
and returns the record exactly as on success, so a write failure is not
surfaced to the caller - only the on-disk state diverges. -/
theorem claim_C2_amended (genId : String) (now : ℕ) (p : Payload) (disk : DB) :
    writeDB false (saveAnalysis genId now p disk).2 disk = (false, disk)
    ∧ (saveAnalysisFS false genId now p disk).1 = (saveAnalysisFS true genId now p disk).1
    ∧ (saveAnalysisFS false genId now p disk).2 = disk :=
  ⟨rfl, rfl, rfl⟩

/-- C6: cosine similarity is 0 (not an error) whenever either magnitude is
exactly zero, and a query with a zero vector against a stored zero vector
yields score 0 (given that the square root of 0 is 0, as for `Math.sqrt`). -/
theorem claim_C6 (sqrtA : ℚ → ℚ) :
    (∀ a b : List ℚ, a.length = b.length →
      sqrtA (magSq a) = 0 ∨ sqrtA (magSq b) = 0 → cosine sqrtA a b = 0)
    ∧ (sqrtA 0 = 0 → ∀ (n : ℕ) (e : VEntry), e.embedding = List.replicate n 0 →
      findSimilar sqrtA [e] (List.replicate n 0) 1 = [⟨e.id, e.summary, 0, e.ts⟩]) := by
  constructor
  · intro a b _ h
    simp only [cosine]
    rw [if_pos h]
  · intro h0 n e he
    have hc : cosine sqrtA (List.replicate n 0) e.embedding = 0 := by
      simp only [cosine]
      rw [if_pos (Or.inl (by rw [magSq_replicate_zero, h0]))]
    simp [findSimilar, jsSlice, jsSliceIdx, hc, List.insertionSort]

/-- C6 witness: concrete instances of both parts, with the square root stood
in by the identity function. -/
theorem claim_C6_witness :
    (([0] : List ℚ).length = ([1] : List ℚ).length
      ∧ (fun x : ℚ => x) (magSq [0]) = 0
      ∧ cosine (fun x : ℚ => x) [0] [1] = 0)
    ∧ ((fun x : ℚ => x) 0 = 0
      ∧ (⟨"a", "s", [0], 3, []⟩ : VEntry).embedding = List.replicate 1 0
      ∧ findSimilar (fun x : ℚ => x) [⟨"a", "s", [0], 3, []⟩] (List.replicate 1 0) 1
        = [⟨"a", "s", 0, 3⟩]) :=
  ⟨⟨rfl, by norm_num [magSq], (claim_C6 _).1 [0] [1] rfl (Or.inl (by norm_num [magSq]))⟩,
   ⟨rfl, rfl, (claim_C6 _).2 rfl 1 _ rfl⟩⟩

/-- C4 counterexample: `topK = -1 ≤ 0`, yet on a two-entry store the query
returns one result, not an empty sequence - `slice(0, -1)` drops only the
last element. -/
theorem claim_C4_cex :
    (-1 : ℤ) ≤ 0
    ∧ findSimilar (fun x : ℚ => x)
        [⟨"a", "sa", [1, 0], 5, []⟩, ⟨"b", "sb", [0, 1], 6, []⟩] [1, 0] (-1)
      = [⟨"a", "sa", 1, 5⟩] :=
  ⟨by decide, by
    norm_num [findSimilar, cosine, dotJS, magSq, jsSlice, jsSliceIdx, rScore,
      List.insertionSort, List.orderedInsert]⟩

/-- C4 (amended): a query on an empty store returns an empty sequence for
every `topK`, and `topK = 0` returns an empty sequence; but a negative `topK`
acts as a negative slice end, returning all ranked results except the last
`|topK|` (non-empty whenever `|topK| <` store size). -/
theorem claim_C4_amended (sqrtA : ℚ → ℚ) (store : List VEntry) (v : List ℚ) (topK : ℤ) :
    findSimilar sqrtA [] v topK = []
    ∧ findSimilar sqrtA store v 0 = []
    ∧ (topK < 0 →
      (findSimilar sqrtA store v topK).length = store.length - topK.natAbs) := by
  refine ⟨rfl, ?_, ?_⟩
  · simp [findSimilar, jsSlice, jsSliceIdx]
  · intro hneg
    cases store with
    | nil => simp [findSimilar]
    | cons s t =>
      have : findSimilar sqrtA (s :: t) v topK
          = (jsSlice (List.insertionSort rScore ((s :: t).map fun entry =>
              (entry, cosine sqrtA v entry.embedding))) 0 topK).map
              (fun x => SimRes.mk x.1.id x.1.summary x.2 x.1.ts) := by
        simp only [findSimilar, List.isEmpty_cons, Bool.false_eq_true, if_false]
      rw [this, List.length_map, jsSlice_neg_length _ _ hneg,
        List.length_insertionSort, List.length_map]

/-- C4 witness for the amended claim: all three parts at concrete inputs; at
`topK = -1` on a one-entry store the result length is `1 - 1 = 0`. -/
theorem claim_C4_witness :
    findSimilar (fun x : ℚ => x) [] [1] 3 = []
    ∧ findSimilar (fun x : ℚ => x) [⟨"a", "sa", [1], 5, []⟩] [1] 0 = []
    ∧ ((-1 : ℤ) < 0
      ∧ (findSimilar (fun x : ℚ => x) [⟨"a", "sa", [1], 5, []⟩] [1] (-1)).length
        = ([⟨"a", "sa", [1], 5, []⟩] : List VEntry).length - (-1 : ℤ).natAbs) :=
  ⟨(claim_C4_amended (fun x => x) [⟨"b", "s", [1], 1, []⟩] [1] 3).1,
   (claim_C4_amended (fun x => x) [⟨"a", "sa", [1], 5, []⟩] [1] 3).2.1,
   by decide,
   (claim_C4_amended (fun x => x) [⟨"a", "sa", [1], 5, []⟩] [1] (-1)).2.2 (by decide)⟩

/-- C3 counterexample: a payload whose `imageHash` field is `"h"` but whose
`id` is `"x"` is stored under `imageHash = "x"` (`saveAnalysis` copies the
payload's `id`, not its `imageHash`), so `getByHash("h")` right after the
save is a not-found signal. -/
theorem claim_C3_cex :
    getAnalysisByHash "h"
      (saveAnalysis "g" 1 { emptyPayload with imageHash := some "h", id := some "x" }
        (initDB "t")).2 = none
    ∧ (saveAnalysis "g" 1 { emptyPayload with imageHash := some "h", id := some "x" }
        (initDB "t")).1.imageHash = some "x" :=
  ⟨by decide, by decide⟩

/-- C3 (amended): `getByHash(h)` immediately after `save(p)` returns a record
equal to the save's return value provided the payload's `id` field - the
dedup key the code actually uses - is `h`. -/
theorem claim_C3_amended (genId : String) (now : ℕ) (p : Payload) (db : DB)
    (h : String) (hid : p.id = some h) :
    getAnalysisByHash h (saveAnalysis genId now p db).2
      = some (saveAnalysis genId now p db).1 := by
  have hr : (defaulted genId now p).imageHash = some h := hid
  show (upsertByHash (defaulted genId now p) db.analyses).1.find?
      (fun a => decide (a.imageHash = some h)) = some (defaulted genId now p)
  rw [← hr]
  exact find?_upsert _ _

/-- C3 witness: the amended claim at a concrete payload with `id = "h"`. -/
theorem claim_C3_witness :
    ({ emptyPayload with id := some "h" } : Payload).id = some "h"
    ∧ getAnalysisByHash "h"
        (saveAnalysis "g" 1 { emptyPayload with id := some "h" } (initDB "t")).2
      = some (saveAnalysis "g" 1 { emptyPayload with id := some "h" } (initDB "t")).1 :=
  ⟨rfl, claim_C3_amended "g" 1 _ (initDB "t") "h" rfl⟩

theorem take_min_length {α : Type} (l : List α) (x : ℕ) :
    l.take (min x l.length) = l.take x := by
  calc l.take (min x l.length) = (l.take l.length).take x := (List.take_take ..).symm
    _ = l.take x := by rw [List.take_length]

theorem jsSlice_drop_take {α : Type} (l : List α) (off k : ℤ)
    (hoff : 0 ≤ off) (hk : 0 ≤ k) :
    jsSlice l off (off + k) = (l.drop off.toNat).take k.toNat := by
  rw [jsSlice, jsSliceIdx, jsSliceIdx, if_neg (by omega), if_neg (by omega),
    take_min_length]
  by_cases h : off.toNat ≤ l.length
  · rw [min_eq_left h, List.drop_take]
    congr 1
    omega
  · have hlen : l.length ≤ off.toNat := le_of_not_le h
    rw [min_eq_right hlen,
      List.drop_eq_nil_of_le (by rw [List.length_take]; omega),
      List.drop_eq_nil_of_le hlen, List.take_nil]

theorem lookupCount_bump (m : List (String × ℕ)) (k d : String) :
    lookupCount (bump m k) d = lookupCount m d + (if k = d then 1 else 0) := by
  induction m with
  | nil => by_cases h : k = d <;> simp [bump, lookupCount, h]
  | cons p rest ih =>
    obtain ⟨k', v⟩ := p
    by_cases h : k' = k
    · subst h
      by_cases h2 : k' = d <;> simp [bump, lookupCount, h2]
    · by_cases h2 : k' = d
      · subst h2
        have : ¬k = k' := fun hk => h hk.symm
        simp [bump, lookupCount, h, this]
      · simp [bump, lookupCount, h, h2, ih]

/-- The per-record counting function of the `forEach` loop in `getStats`. -/
def statsStep (st : List (String × ℕ) × List (String × ℕ)) (a : Analysis) :
    List (String × ℕ) × List (String × ℕ) :=
  (bump st.1 (jsOrStr (some a.domain) "Unknown"),
   bump st.2 (jsOrStr (some a.confidenceLevel) "Medium"))

theorem fold_statsStep_fst (l : List Analysis)
    (m0 : List (String × ℕ) × List (String × ℕ)) (d : String) :
    lookupCount (l.foldl statsStep m0).1 d
      = lookupCount m0.1 d
        + (l.filter fun a => decide (jsOrStr (some a.domain) "Unknown" = d)).length := by
  induction l generalizing m0 with
  | nil => simp
  | cons a rest ih =>
    rw [List.foldl_cons, ih]
    by_cases h : jsOrStr (some a.domain) "Unknown" = d
    · simp [statsStep, lookupCount_bump, List.filter_cons, h]
      omega
    · simp [statsStep, lookupCount_bump, List.filter_cons, h]

theorem fold_statsStep_snd (l : List Analysis)
    (m0 : List (String × ℕ) × List (String × ℕ)) (c : String) :
    lookupCount (l.foldl statsStep m0).2 c
      = lookupCount m0.2 c
        + (l.filter fun a =>
            decide (jsOrStr (some a.confidenceLevel) "Medium" = c)).length := by
  induction l generalizing m0 with
  | nil => simp
  | cons a rest ih =>
    rw [List.foldl_cons, ih]
    by_cases h : jsOrStr (some a.confidenceLevel) "Medium" = c
    · simp [statsStep, lookupCount_bump, List.filter_cons, h]
      omega
    · simp [statsStep, lookupCount_bump, List.filter_cons, h]

/-- C7 counterexample: with `limit = 0` given, `list(0, 0)` on a one-record
store returns the whole record list, not the 0-sized slice `[]` - JavaScript
truthiness treats `limit = 0` like no limit at all. -/
theorem claim_C7_cex :
    getAllAnalyses (some 0) 0 (saveAnalysis "g" 1 emptyPayload (initDB "t")).2
      = [defaulted "g" 1 emptyPayload]
    ∧ (getAllAnalyses (some 0) 0 (saveAnalysis "g" 1 emptyPayload (initDB "t")).2).length
      = 1 := by
  constructor <;> decide

/-- C7 (amended): `list()` with no limit returns all records ordered by
timestamp descending; `limit = 0` (falsy) behaves exactly like no limit; and
whenever a positive limit is given with a non-negative offset, the result is
the limit-sized slice of the ordered sequence starting at the offset. -/
theorem claim_C7_amended (db : DB) (k off : ℤ) (hk : 0 < k) (hoff : 0 ≤ off) :
    (getAllAnalyses none 0 db).Perm db.analyses
    ∧ List.Sorted tsDesc (getAllAnalyses none 0 db)
    ∧ getAllAnalyses (some 0) 0 db = getAllAnalyses none 0 db
    ∧ getAllAnalyses (some k) off db
      = ((getAllAnalyses none 0 db).drop off.toNat).take k.toNat := by
  refine ⟨List.perm_insertionSort tsDesc db.analyses,
    List.sorted_insertionSort tsDesc db.analyses, rfl, ?_⟩
  have hkt : jsTruthyInt (some k) = true := by
    simp [jsTruthyInt]
    omega
  show (if jsTruthyInt (some k) = true then
      jsSlice (List.insertionSort tsDesc db.analyses) off (off + k)
    else List.insertionSort tsDesc db.analyses)
    = ((List.insertionSort tsDesc db.analyses).drop off.toNat).take k.toNat
  rw [if_pos hkt, jsSlice_drop_take _ _ _ hoff (le_of_lt hk)]

/-- C7 witness: the amended claim on a five-record store with distinct
timestamps, `limit = 2`, `offset = 0`, plus the spec's concrete expectation
that exactly the two most recent records come back, most recent first. -/
theorem claim_C7_witness :
    (0 : ℤ) < 2 ∧ (0 : ℤ) ≤ 0
    ∧ ((getAllAnalyses none 0 sampleDB5).Perm sampleDB5.analyses
      ∧ List.Sorted tsDesc (getAllAnalyses none 0 sampleDB5)
      ∧ getAllAnalyses (some 0) 0 sampleDB5 = getAllAnalyses none 0 sampleDB5
      ∧ getAllAnalyses (some 2) 0 sampleDB5
        = ((getAllAnalyses none 0 sampleDB5).drop (0 : ℤ).toNat).take (2 : ℤ).toNat)
    ∧ getAllAnalyses (some 2) 0 sampleDB5 = [sampleRec "e" 5, sampleRec "d" 4] :=
  ⟨by decide, by decide, claim_C7_amended sampleDB5 2 0 (by decide) (by decide), by decide⟩

/-- C8: `stats()` returns the record count, per-domain and per-confidence
occurrence counts (defaults `"Unknown"`/`"Medium"` standing in for falsy
values), and the 10 most recent records reduced to
`{id, timestamp, domain, summary truncated to 100 characters plus "..."}`;
in particular the concrete single-record scenario yields
`totalAnalyses = 1`, `domains = {"Medical": 1}`,
`confidenceLevels = {"High": 1}`. -/
theorem claim_C8 :
    (∀ db : DB,
      (getStats db).totalAnalyses = db.analyses.length
      ∧ (∀ d, lookupCount (getStats db).domains d
          = (db.analyses.filter fun a =>
              decide (jsOrStr (some a.domain) "Unknown" = d)).length)
      ∧ (∀ c, lookupCount (getStats db).confidenceLevels c
          = (db.analyses.filter fun a =>
              decide (jsOrStr (some a.confidenceLevel) "Medium" = c)).length)
      ∧ ∃ L : List Analysis, L.Perm db.analyses ∧ List.Sorted tsDesc L
          ∧ (getStats db).recentAnalyses = (L.take 10).map fun a =>
              RecentEntry.mk a.id a.timestamp a.domain (a.imageSummary.take 100 ++ "..."))
    ∧ ((getStats scenarioDB).totalAnalyses = 1
      ∧ (getStats scenarioDB).domains = [("Medical", 1)]
      ∧ (getStats scenarioDB).confidenceLevels = [("High", 1)]) := by
  refine ⟨fun db => ⟨rfl, fun d => ?_, fun c => ?_, ?_⟩, by decide, by decide, by decide⟩
  · show lookupCount (db.analyses.foldl statsStep ([], [])).1 d = _
    rw [fold_statsStep_fst]
    simp [lookupCount]
  · show lookupCount (db.analyses.foldl statsStep ([], [])).2 c = _
    rw [fold_statsStep_snd]
    simp [lookupCount]
  · exact ⟨List.insertionSort tsDesc db.analyses,
      List.perm_insertionSort tsDesc db.analyses,
      List.sorted_insertionSort tsDesc db.analyses, rfl⟩

theorem length_upsert (r : Analysis) (l : List Analysis) :
    (upsertByHash r l).1.length
      = if (upsertByHash r l).2 then l.length + 1 else l.length := by
  induction l with
  | nil => simp [upsertByHash]
  | cons a rest ih =>
    by_cases h : a.imageHash = r.imageHash
    · simp [upsertByHash, h]
    · simp only [upsertByHash, h, if_false, List.length_cons]
      rw [ih]
      by_cases hc : (upsertByHash r rest).2 <;> simp [hc]

theorem applyOp_inv (db : DB) (op : StoreOp)
    (h : db.metadata.totalAnalyses = db.analyses.length) :
    (applyOp db op).metadata.totalAnalyses = (applyOp db op).analyses.length := by
  cases op with
  | save fsOk genId now p =>
    cases fsOk
    · exact h
    · show (saveAnalysis genId now p db).2.metadata.totalAnalyses
        = (saveAnalysis genId now p db).2.analyses.length
      simp only [saveAnalysis]
      by_cases ha : (upsertByHash (defaulted genId now p) db.analyses).2
      · simp [ha]
      · rw [if_neg ha]
        show db.metadata.totalAnalyses = _
        rw [h, length_upsert, if_neg ha]
  | del fsOk id =>
    cases fsOk
    · exact h
    · rfl

/-- C9: starting from a freshly initialized store, after every finite
sequence of `saveAnalysis` and `deleteAnalysis` calls (whether or not their
file writes succeed), `metadata.totalAnalyses` equals the number of records
in the `analyses` array: the save update branch leaves both untouched, and
the append and delete branches refresh the total from the array length. -/
theorem claim_C9 (createdAt : String) (ops : List StoreOp) :
    (runOps (initDB createdAt) ops).metadata.totalAnalyses
      = (runOps (initDB createdAt) ops).analyses.length := by
  suffices h : ∀ db : DB, db.metadata.totalAnalyses = db.analyses.length →
      (runOps db ops).metadata.totalAnalyses = (runOps db ops).analyses.length from
    h _ rfl
  induction ops with
  | nil => intro db h; exact h
  | cons op rest ih => intro db h; exact ih _ (applyOp_inv db op h)

theorem mem_upsert (r : Analysis) (l : List Analysis) :
    ∀ a ∈ (upsertByHash r l).1, a ∈ l ∨ a = r := by
  induction l with
  | nil =>
    intro a ha
    simp [upsertByHash] at ha
    exact Or.inr ha
  | cons a0 rest ih =>
    intro a ha
    by_cases h : a0.imageHash = r.imageHash
    · simp [upsertByHash, h, spreadMerge_eq] at ha
      rcases ha with ha | ha
      · exact Or.inr ha
      · exact Or.inl (List.mem_cons_of_mem _ ha)
    · simp only [upsertByHash, h, if_false, List.mem_cons] at ha
      rcases ha with ha | ha
      · exact Or.inl (ha ▸ List.mem_cons_self _ _)
      · rcases ih a ha with h' | h'
        · exact Or.inl (List.mem_cons_of_mem _ h')
        · exact Or.inr h'

theorem filterNone_upsert_some (r : Analysis) (l : List Analysis)
    (hr : r.imageHash ≠ none) :
    ((upsertByHash r l).1.filter fun a => decide (a.imageHash = none)).length
      = (l.filter fun a => decide (a.imageHash = none)).length := by
  induction l with
  | nil => simp [upsertByHash, List.filter, hr]
  | cons a rest ih =>
    by_cases h : a.imageHash = r.imageHash
    · have ha : a.imageHash ≠ none := by rw [h]; exact hr
      simp [upsertByHash, h, spreadMerge_eq, List.filter_cons, hr, ha]
    · simp only [upsertByHash, h, if_false, List.filter_cons]
      by_cases ha : a.imageHash = none <;> simp [ha, ih]

theorem filterNone_upsert_none (r : Analysis) (l : List Analysis)
    (hr : r.imageHash = none) :
    ((upsertByHash r l).1.filter fun a => decide (a.imageHash = none)).length
      = max 1 ((l.filter fun a => decide (a.imageHash = none)).length) := by
  induction l with
  | nil => simp [upsertByHash, List.filter, hr]
  | cons a rest ih =>
    by_cases h : a.imageHash = r.imageHash
    · have ha : a.imageHash = none := by rw [h]; exact hr
      simp [upsertByHash, h, spreadMerge_eq, List.filter_cons, hr, ha]
    · have ha : a.imageHash ≠ none := fun hn => h (hn.trans hr.symm)
      simp only [upsertByHash, h, if_false, List.filter_cons]
      simp [ha, ih]

theorem saveSeq_filterNone (calls : List (String × ℕ × Payload)) :
    ∀ db : DB,
      ((db.analyses.filter fun a => decide (a.imageHash = none)).length ≤ 1) →
      (((saveSeq db calls).analyses.filter
        fun a => decide (a.imageHash = none)).length ≤ 1) := by
  induction calls with
  | nil => intro db h; exact h
  | cons c rest ih =>
    intro db h
    obtain ⟨g, n, p⟩ := c
    apply ih
    show ((upsertByHash (defaulted g n p) db.analyses).1.filter
      fun a => decide (a.imageHash = none)).length ≤ 1
    by_cases hr : (defaulted g n p).imageHash = none
    · rw [filterNone_upsert_none _ _ hr]
      omega
    · rw [filterNone_upsert_some _ _ hr]
      exact h

/-- C10: the record `saveAnalysis(p)` builds and stores carries
`imageHash = p.id` - the payload's own `imageHash` field is never consulted
(changing it changes nothing) - and, starting from a fresh store, any
sequence of saves leaves at most one record with an absent `imageHash`,
because an id-less save merges into the existing id-less record. -/
theorem claim_C10 :
    (∀ (genId : String) (now : ℕ) (p : Payload) (db : DB),
      (saveAnalysis genId now p db).1.imageHash = p.id
      ∧ (∀ a ∈ (saveAnalysis genId now p db).2.analyses,
          a ∈ db.analyses ∨ a.imageHash = p.id)
      ∧ (∀ x, saveAnalysis genId now { p with imageHash := x } db
          = saveAnalysis genId now p db))
    ∧ ∀ (createdAt : String) (calls : List (String × ℕ × Payload)),
      (((saveSeq (initDB createdAt) calls).analyses.filter
        fun a => decide (a.imageHash = none)).length ≤ 1) := by
  constructor
  · intro genId now p db
    refine ⟨rfl, ?_, fun x => rfl⟩
    intro a ha
    rcases mem_upsert _ _ a ha with h | h
    · exact Or.inl h
    · exact Or.inr (by rw [h]; rfl)
  · intro createdAt calls
    apply saveSeq_filterNone
    simp [initDB]

/-- C10 witness: concrete instances of each part; in particular two id-less
saves leave a single record with an absent hash. -/
theorem claim_C10_witness :
    ((saveAnalysis "g" 1 emptyPayload (initDB "t")).1.imageHash = emptyPayload.id)
    ∧ (defaulted "g" 1 emptyPayload ∈ (saveAnalysis "g" 1 emptyPayload (initDB "t")).2.analyses
      ∧ (defaulted "g" 1 emptyPayload ∈ (initDB "t").analyses
        ∨ (defaulted "g" 1 emptyPayload).imageHash = emptyPayload.id))
    ∧ saveAnalysis "g" 1 { emptyPayload with imageHash := some "zz" } (initDB "t")
        = saveAnalysis "g" 1 emptyPayload (initDB "t")
    ∧ (((saveSeq (initDB "t") [("g1", 1, emptyPayload), ("g2", 2, emptyPayload)]).analyses.filter
        fun a => decide (a.imageHash = none)).length ≤ 1) :=
  ⟨(claim_C10.1 "g" 1 emptyPayload (initDB "t")).1,
   ⟨by decide, (claim_C10.1 "g" 1 emptyPayload (initDB "t")).2.1 _ (by decide)⟩,
   (claim_C10.1 "g" 1 emptyPayload (initDB "t")).2.2 (some "zz"),
   claim_C10.2 "t" [("g1", 1, emptyPayload), ("g2", 2, emptyPayload)]⟩

theorem filter_upsert_save (r : Analysis) (h : String) (hr : r.imageHash = some h)
    (l : List Analysis)
    (hl : (l.filter fun a => decide (a.imageHash = some h)) = []
      ∨ ∃ r0, (l.filter fun a => decide (a.imageHash = some h)) = [r0]) :
    ((upsertByHash r l).1.filter fun a => decide (a.imageHash = some h)) = [r] := by
  induction l with
  | nil => simp [upsertByHash, List.filter, hr]
  | cons a rest ih =>
    by_cases hm : a.imageHash = r.imageHash
    · have ha : a.imageHash = some h := hm.trans hr
      rcases hl with hl | ⟨r0, hl⟩
      · exfalso
        simp [List.filter_cons, ha] at hl
      · have hrest : (rest.filter fun a => decide (a.imageHash = some h)) = [] := by
          simp only [List.filter_cons, decide_eq_true_eq, ha, if_pos] at hl
          exact (List.cons_eq_cons.mp hl).2
        simp [upsertByHash, hm, spreadMerge_eq, List.filter_cons, hr, hrest]
    · have ha : ¬a.imageHash = some h := fun hh => hm (hh.trans hr.symm)
      have hl' : (rest.filter fun a => decide (a.imageHash = some h)) = []
          ∨ ∃ r0, (rest.filter fun a => decide (a.imageHash = some h)) = [r0] := by
        simpa [List.filter_cons, ha] using hl
      simp [upsertByHash, hm, List.filter_cons, ha, ih hl']

theorem saveSeq_append (db : DB) (l1 l2 : List (String × ℕ × Payload)) :
    saveSeq db (l1 ++ l2) = saveSeq (saveSeq db l1) l2 := by
  induction l1 generalizing db with
  | nil => rfl
  | cons c rest ih =>
    obtain ⟨g, n, p⟩ := c
    exact ih _

theorem saveSeq_pre (h : String) (calls : List (String × ℕ × Payload))
    (hall : ∀ c ∈ calls, (c.2.2 : Payload).id = some h) :
    ∀ db : DB,
      ((db.analyses.filter fun a => decide (a.imageHash = some h)) = []
        ∨ ∃ r0, (db.analyses.filter fun a => decide (a.imageHash = some h)) = [r0]) →
      (((saveSeq db calls).analyses.filter fun a => decide (a.imageHash = some h)) = []
        ∨ ∃ r0, ((saveSeq db calls).analyses.filter
            fun a => decide (a.imageHash = some h)) = [r0]) := by
  induction calls with
  | nil => intro db hdb; exact hdb
  | cons c rest ih =>
    intro db hdb
    obtain ⟨g, n, p⟩ := c
    have hid : (defaulted g n p).imageHash = some h := hall (g, n, p) (by simp)
    apply ih (fun c hc => hall c (List.mem_cons_of_mem _ hc))
    right
    exact ⟨defaulted g n p, filter_upsert_save _ h hid _ hdb⟩

/-- C1 (amended): the dedup key of `save` is the payload's `id` field, which
is copied into the stored record's `imageHash` (the payload's `imageHash`
field is ignored); after N successive saves whose payloads all carry
`id = h` on a store with no record for `h`, the store contains exactly one
record with `imageHash = h`, and its fields equal the last payload's fields
after applying the save-time defaults - values from earlier payloads never
survive, because every save re-supplies every field (defaults standing in
for omitted ones) before the shallow merge. -/
theorem claim_C1_amended (h : String) (calls : List (String × ℕ × Payload))
    (g : String) (n : ℕ) (p : Payload)
    (hlast : calls.getLast? = some (g, n, p))
    (hall : ∀ c ∈ calls, (c.2.2 : Payload).id = some h)
    (db0 : DB) (h0 : ∀ a ∈ db0.analyses, a.imageHash ≠ some h) :
    ((saveSeq db0 calls).analyses.filter fun a => decide (a.imageHash = some h))
      = [defaulted g n p] := by
  obtain ⟨init, rfl⟩ := List.getLast?_eq_some_iff.mp hlast
  rw [saveSeq_append]
  show ((upsertByHash (defaulted g n p) (saveSeq db0 init).analyses).1.filter
    fun a => decide (a.imageHash = some h)) = [defaulted g n p]
  have hid : (defaulted g n p).imageHash = some h :=
    hall (g, n, p) (List.mem_append_right _ (List.mem_singleton_self _))
  apply filter_upsert_save _ h hid
  apply saveSeq_pre h init (fun c hc => hall c (List.mem_append_left _ hc))
  left
  rw [List.filter_eq_nil_iff]
  intro a ha
  simpa using h0 a ha

theorem withIdx_mem_ge {α : Type} (l : List α) (n : ℕ) :
    ∀ q ∈ withIdx l n, n ≤ q.2 := by
  induction l generalizing n with
  | nil => intro q hq; simp [withIdx] at hq
  | cons a l ih =>
    intro q hq
    rcases List.mem_cons.mp hq with hq | hq
    · rw [hq]
    · exact le_of_lt (Nat.lt_of_lt_of_le (Nat.lt_succ_self n) (ih (n + 1) q hq))

theorem orderedInsert_lex_fst (x : VEntry × ℚ) (n : ℕ)
    (M : List ((VEntry × ℚ) × ℕ)) (hM : ∀ q ∈ M, n < q.2) :
    (List.orderedInsert rLex (x, n) M).map Prod.fst
      = List.orderedInsert rScore x (M.map Prod.fst) := by
  induction M with
  | nil => rfl
  | cons q M' ih =>
    have hq : n < q.2 := hM q (List.mem_cons_self _ _)
    have hequiv : rLex (x, n) q ↔ rScore x q.1 := by
      unfold rLex rScore
      constructor
      · rintro (h | ⟨heq, _⟩)
        · exact le_of_lt h
        · exact le_of_eq heq.symm
      · intro hle
        rcases lt_or_eq_of_le hle with h | h
        · exact Or.inl h
        · exact Or.inr ⟨h.symm, le_of_lt hq⟩
    by_cases hc : rScore x q.1
    · simp only [List.orderedInsert, List.map_cons]
      rw [if_pos (hequiv.mpr hc), if_pos hc]
      simp
    · simp only [List.orderedInsert, List.map_cons]
      rw [if_neg (fun hh => hc (hequiv.mp hh)), if_neg hc]
      simp only [List.map_cons]
      rw [ih fun q' hq' => hM q' (List.mem_cons_of_mem _ hq')]

theorem insertionSort_score_withIdx (l : List (VEntry × ℚ)) (n : ℕ) :
    List.insertionSort rScore l
      = (List.insertionSort rLex (withIdx l n)).map Prod.fst := by
  induction l generalizing n with
  | nil => rfl
  | cons x l ih =>
    simp only [List.insertionSort, withIdx]
    rw [orderedInsert_lex_fst x n _ ?hmem, ← ih (n + 1)]
    case hmem =>
      intro q hq
      have hmem' : q ∈ withIdx l (n + 1) :=
        (List.perm_insertionSort rLex _).mem_iff.mp hq
      have := withIdx_mem_ge l (n + 1) q hmem'
      omega

theorem jsSlice_zero_take {α : Type} (l : List α) (k : ℤ) (hk : 0 ≤ k) :
    jsSlice l 0 k = l.take k.toNat := by
  simpa using jsSlice_drop_take l 0 k le_rfl hk

/-- C5: on a non-empty store of embeddings matching the query's dimension and
a positive `topK`, a query returns the first `topK` of the stored entries
ranked by descending cosine score with ties broken by original store order
(the comparator sort is stable), each projected to
`{id, summary, score, ts}`. -/
theorem claim_C5 (sqrtA : ℚ → ℚ) (store : List VEntry) (v : List ℚ) (topK : ℤ)
    (hne : store ≠ []) (hk : 0 < topK)
    (hdim : ∀ e ∈ store, e.embedding.length = v.length) :
    findSimilar sqrtA store v topK
      = ((specRanked sqrtA store v).take topK.toNat).map
          fun s => SimRes.mk s.1.id s.1.summary s.2 s.1.ts := by
  have hempty : store.isEmpty = false := by
    cases store with
    | nil => exact absurd rfl hne
    | cons s t => rfl
  show (if store.isEmpty = true then [] else
      (jsSlice (List.insertionSort rScore (store.map fun entry =>
        (entry, cosine sqrtA v entry.embedding))) 0 topK).map
        fun s => SimRes.mk s.1.id s.1.summary s.2 s.1.ts) = _
  rw [hempty]
  simp only [Bool.false_eq_true, if_false]
  rw [jsSlice_zero_take _ _ (le_of_lt hk)]
  show _ = (((List.insertionSort rLex (withIdx (store.map fun entry =>
      (entry, cosine sqrtA v entry.embedding)) 0)).map Prod.fst).take topK.toNat).map
      fun s => SimRes.mk s.1.id s.1.summary s.2 s.1.ts
  rw [← insertionSort_score_withIdx _ 0]

/-- C5 witness: a two-entry store, query `[1, 0]`, `topK = 1`, square root
stood in by the identity function. -/
theorem claim_C5_witness :
    (([⟨"a", "sa", [1, 0], 5, []⟩, ⟨"b", "sb", [0, 1], 6, []⟩] : List VEntry) ≠ []
      ∧ (0 : ℤ) < 1
      ∧ ∀ e ∈ ([⟨"a", "sa", [1, 0], 5, []⟩, ⟨"b", "sb", [0, 1], 6, []⟩] : List VEntry),
          e.embedding.length = ([1, 0] : List ℚ).length)
    ∧ findSimilar (fun x : ℚ => x)
        [⟨"a", "sa", [1, 0], 5, []⟩, ⟨"b", "sb", [0, 1], 6, []⟩] [1, 0] 1
      = ((specRanked (fun x : ℚ => x)
          [⟨"a", "sa", [1, 0], 5, []⟩, ⟨"b", "sb", [0, 1], 6, []⟩] [1, 0]).take
            (1 : ℤ).toNat).map fun s => SimRes.mk s.1.id s.1.summary s.2 s.1.ts :=
  ⟨⟨by decide, by decide, by decide⟩,
   claim_C5 (fun x : ℚ => x) _ [1, 0] 1 (by decide) (by decide) (by decide)⟩

/-- C1 counterexample: two saves whose payloads carry `imageHash = "h"` leave
zero (not one) records with that hash, because `save` keys on the payload's
`id`, not its `imageHash`; and even when keyed correctly by `id`, a field
supplied by the first payload and omitted by the second (`filename`) ends as
the default `"unknown"`, not the earlier payload's value, refuting the
last-writer-per-field merge. -/
theorem claim_C1_cex :
    (((saveSeq (initDB "t")
      [("g1", 1, { emptyPayload with imageHash := some "h" }),
       ("g2", 2, { emptyPayload with imageHash := some "h", filename := some "a.png" })]).analyses.filter
        fun a => decide (a.imageHash = some "h")).length = 0)
    ∧ ((saveSeq (initDB "t") [("g1", 1, pay1), ("g2", 2, pay2)]).analyses.map
        fun a => a.filename) = ["unknown"] := by
  constructor <;> decide

/-- C1 witness: the amended claim on two concrete saves keyed by
`id = "h"`, the second omitting `filename`; the single surviving record is
the fully defaulted last payload. -/
theorem claim_C1_witness :
    ([("g1", 1, pay1), ("g2", 2, pay2)].getLast? = some ("g2", 2, pay2))
    ∧ (∀ c ∈ [("g1", (1 : ℕ), pay1), ("g2", 2, pay2)], (c.2.2 : Payload).id = some "h")
    ∧ (∀ a ∈ (initDB "t").analyses, a.imageHash ≠ some "h")
    ∧ ((saveSeq (initDB "t") [("g1", 1, pay1), ("g2", 2, pay2)]).analyses.filter
        fun a => decide (a.imageHash = some "h"))
      = [defaulted "g2" 2 pay2] :=
  ⟨rfl, by decide, by simp [initDB],
   claim_C1_amended "h" [("g1", 1, pay1), ("g2", 2, pay2)] "g2" 2 pay2 rfl
     (by decide) (initDB "t") (by simp [initDB])⟩

end ImageAnalyzer
